import Mathlib

/-!
Verification development for the lectionarium repository
(src/python/bible.py and its tests in src/python/test/test_bible.py).

Text is embedded as `List Char` (a Python `str` is a sequence of
characters).  Fallible Python code is embedded in the `Except` monad;
the distinct Python exception classes that the claims talk about
(`FormattingError`, `IndexError`, `TypeError`, `ValueError`) become the
constructors of `PyError`.
-/

namespace Bible

/-- The characters removed by Python `str.strip()` with no argument. -/
def isPySpace (c : Char) : Bool :=
  c = ' ' || c = '\t' || c = '\n' || c = '\r' || c = '\x0b' || c = '\x0c'

/-- Python `str.strip()`: remove leading and trailing whitespace. -/
def pyStrip (cs : List Char) : List Char :=
  ((cs.dropWhile isPySpace).reverse.dropWhile isPySpace).reverse

/-- The messages of the `FormattingError`s raised in bible.py.
`poetryBeginInsidePoetry` is the error whose Python text reads
Saw "[" inside of poetry!, and so on for the other two. -/
inductive FmtMsg where
  | poetryBeginInsidePoetry
  | poetryEndInsideProse
  | paragraphBreakOutsideProse
deriving DecidableEq, Repr

/-- The Python exceptions that can escape the embedded code. -/
inductive PyError where
  | formattingError (msg : FmtMsg)
  | indexError
  | typeError
  | valueError
deriving DecidableEq, Repr

instance {e a : Type} [DecidableEq e] [DecidableEq a] : DecidableEq (Except e a)
  | Except.ok v, Except.ok w =>
    if h : v = w then Decidable.isTrue (congrArg Except.ok h)
    else Decidable.isFalse (fun hh => h (Except.ok.inj hh))
  | Except.ok _, Except.error _ => Decidable.isFalse (fun hh => Except.noConfusion hh)
  | Except.error _, Except.ok _ => Decidable.isFalse (fun hh => Except.noConfusion hh)
  | Except.error v, Except.error w =>
    if h : v = w then Decidable.isTrue (congrArg Except.error h)
    else Decidable.isFalse (fun hh => h (Except.error.inj hh))

/-- A verse address as supplied by the text store (see the `Address`
notion of the spec and `Book._getTextAtPoint` in test_bible.py): either
a bare integer (book without chapters) or a (chapter, verse) pair. -/
inductive PyAddr where
  | int (n : Nat)
  | pair (chapter verse : Nat)
deriving DecidableEq, Repr

/-- The `formatting` tag of a `Paragraph` in bible.py: the strings
prose and poetry. -/
inductive Fmt where
  | prose
  | poetry
deriving DecidableEq, Repr

/-- `Paragraph.__init__` in bible.py: a formatting tag, the `useColor`
flag and an accumulating list of `(addr, text)` lines. -/
structure Paragraph where
  formatting : Fmt
  useColor : Bool
  lines : List (Option PyAddr × List Char)
deriving DecidableEq, Repr

/-- `Paragraph.addText`. -/
def Paragraph.addText (p : Paragraph) (addr : Option PyAddr) (text : List Char) : Paragraph :=
  { p with lines := p.lines ++ [(addr, text)] }

/-- `Paragraph.isEmpty`. -/
def Paragraph.isEmpty (p : Paragraph) : Bool :=
  p.lines.length = 0

/-- The mutable state of `ConsoleVerseFormatter`: `_useColor`,
`paragraphs` and `verseAddr`. -/
structure FmtState where
  useColor : Bool
  paragraphs : List Paragraph
  verseAddr : Option PyAddr
deriving DecidableEq, Repr

/-- `ConsoleVerseFormatter.__init__`. -/
def initialState : FmtState :=
  { useColor := true, paragraphs := [], verseAddr := none }

/-- `ConsoleVerseFormatter.currentParagraphIsProse`:
`len(self.paragraphs) > 0 and self.paragraphs[-1].formatting == 'prose'`. -/
def FmtState.currentParagraphIsProse (st : FmtState) : Bool :=
  match st.paragraphs.getLast? with
  | some p => p.formatting == Fmt.prose
  | none => false

/-- `ConsoleVerseFormatter.currentParagraphIsNotProse`:
`len(self.paragraphs) > 0 and self.paragraphs[-1].formatting != 'prose'`. -/
def FmtState.currentParagraphIsNotProse (st : FmtState) : Bool :=
  match st.paragraphs.getLast? with
  | some p => p.formatting != Fmt.prose
  | none => false

/-- `ConsoleVerseFormatter.currentParagraphIsPoetry`. -/
def FmtState.currentParagraphIsPoetry (st : FmtState) : Bool :=
  match st.paragraphs.getLast? with
  | some p => p.formatting == Fmt.poetry
  | none => false

/-- `ConsoleVerseFormatter.currentParagraphIsNotPoetry`:
`len(self.paragraphs) > 0 and self.paragraphs[-1].formatting != 'poetry'`. -/
def FmtState.currentParagraphIsNotPoetry (st : FmtState) : Bool :=
  match st.paragraphs.getLast? with
  | some p => p.formatting != Fmt.poetry
  | none => false

/-- Helper: append one line to the last paragraph of a list
(`self.paragraphs[-1].addText(...)`).  On the empty list it does
nothing; the caller establishes non-emptiness first. -/
def addToLast (ps : List Paragraph) (addr : Option PyAddr) (text : List Char) :
    List Paragraph :=
  match ps with
  | [] => []
  | [p] => [p.addText addr text]
  | p :: q :: rest => p :: addToLast (q :: rest) addr text

/-- `ConsoleVerseFormatter.addTextToCurrentParagraph`: unless `text` is
empty, create a prose paragraph if none exists, append
`(verseAddr, text)` as a line of the last paragraph, and clear
`verseAddr`. -/
def FmtState.addTextToCurrentParagraph (st : FmtState) (text : List Char) : FmtState :=
  if text.length > 0 then
    let ps :=
      if st.paragraphs.length = 0 then [Paragraph.mk Fmt.prose st.useColor []]
      else st.paragraphs
    { st with paragraphs := addToLast ps st.verseAddr text, verseAddr := none }
  else st

/-- Append a fresh empty paragraph
(`self.paragraphs.append(Paragraph(f, self.useColor))`). -/
def FmtState.appendParagraph (st : FmtState) (f : Fmt) : FmtState :=
  { st with paragraphs := st.paragraphs ++ [Paragraph.mk f st.useColor []] }

/-- The guarded pop in `_handlePoetryBegin`:
`if len(self.paragraphs) > 0: if self.paragraphs[-1].isEmpty: pop()`. -/
def FmtState.popEmptyLast (st : FmtState) : FmtState :=
  match st.paragraphs.getLast? with
  | some p => if p.isEmpty then { st with paragraphs := st.paragraphs.dropLast } else st
  | none => st

/-- `ConsoleVerseFormatter._handlePoetryBegin`. -/
def FmtState.handlePoetryBegin (st : FmtState) (seg : List Char) :
    Except PyError FmtState :=
  if st.currentParagraphIsPoetry then
    Except.error (PyError.formattingError FmtMsg.poetryBeginInsidePoetry)
  else
    Except.ok (((st.addTextToCurrentParagraph seg).popEmptyLast).appendParagraph Fmt.poetry)

/-- `ConsoleVerseFormatter._handlePoetryEnd`. -/
def FmtState.handlePoetryEnd (st : FmtState) (seg : List Char) :
    Except PyError FmtState :=
  if st.currentParagraphIsProse then
    Except.error (PyError.formattingError FmtMsg.poetryEndInsideProse)
  else
    Except.ok ((st.addTextToCurrentParagraph seg).appendParagraph Fmt.prose)

/-- `ConsoleVerseFormatter._handlePoetryLineBreak`: never raises; the
leniency branch appends a poetry paragraph when the current paragraph
exists and is not poetry. -/
def FmtState.handlePoetryLineBreak (st : FmtState) (seg : List Char) : FmtState :=
  let st1 := if st.currentParagraphIsNotPoetry then st.appendParagraph Fmt.poetry else st
  st1.addTextToCurrentParagraph seg

/-- `ConsoleVerseFormatter._handleParagraphBreak`.  Note the unguarded
`self.paragraphs[-1]` after the text commit: with no paragraphs it is a
Python `IndexError`. -/
def FmtState.handleParagraphBreak (st : FmtState) (seg : List Char) :
    Except PyError FmtState :=
  if st.currentParagraphIsNotProse then
    Except.error (PyError.formattingError FmtMsg.paragraphBreakOutsideProse)
  else
    let st1 := st.addTextToCurrentParagraph seg
    match st1.paragraphs.getLast? with
    | none => Except.error PyError.indexError
    | some p => Except.ok (if !p.isEmpty then st1.appendParagraph Fmt.prose else st1)

/-- The metacharacter class of `_formatVerse`: the regex `[\[\]/\\]`. -/
def isMetaChar (c : Char) : Bool :=
  c = '[' || c = ']' || c = '/' || c = '\\'

/-- `re.search(metaCharRegex, verseText)`: split the text at the first
metacharacter, if any. -/
def splitAtMeta : List Char → List Char × Option (Char × List Char)
  | [] => ([], none)
  | c :: cs =>
    if isMetaChar c then ([], some (c, cs))
    else
      let r := splitAtMeta cs
      (c :: r.1, r.2)

theorem splitAtMeta_snd {cs rest : List Char} {m : Char}
    (h : (splitAtMeta cs).2 = some (m, rest)) :
    cs = (splitAtMeta cs).1 ++ m :: rest := by
  induction cs with
  | nil => simp [splitAtMeta] at h
  | cons c cs ih =>
    by_cases hc : isMetaChar c
    · simp [splitAtMeta, hc] at h ⊢
      obtain ⟨h1, h2⟩ := h
      simp [h1, h2]
    · simp [splitAtMeta, hc] at h ⊢
      exact ih h

theorem splitAtMeta_some {cs pre rest : List Char} {m : Char}
    (h : splitAtMeta cs = (pre, some (m, rest))) : cs = pre ++ m :: rest := by
  have h2 : (splitAtMeta cs).2 = some (m, rest) := by rw [h]
  have h1 : (splitAtMeta cs).1 = pre := by rw [h]
  have := splitAtMeta_snd h2
  rwa [h1] at this

theorem pyStrip_length_le (cs : List Char) : (pyStrip cs).length ≤ cs.length := by
  unfold pyStrip
  calc ((cs.dropWhile isPySpace).reverse.dropWhile isPySpace).reverse.length
      = ((cs.dropWhile isPySpace).reverse.dropWhile isPySpace).length := by
        rw [List.length_reverse]
    _ ≤ (cs.dropWhile isPySpace).reverse.length :=
        (List.dropWhile_sublist _).length_le
    _ = (cs.dropWhile isPySpace).length := by rw [List.length_reverse]
    _ ≤ cs.length := (List.dropWhile_sublist _).length_le

/-- The dispatch on `metaChar` inside `_formatVerse`'s loop. -/
def FmtState.dispatchMeta (st : FmtState) (c : Char) (seg : List Char) :
    Except PyError FmtState :=
  if c = '[' then st.handlePoetryBegin seg
  else if c = ']' then st.handlePoetryEnd seg
  else if c = '/' then Except.ok (st.handlePoetryLineBreak seg)
  else if c = '\\' then st.handleParagraphBreak seg
  else Except.ok st

/-- `ConsoleVerseFormatter._formatVerse`: scan the verse text left to
right; each metacharacter closes off the stripped text before it as a
segment handled by the corresponding handler, and the stripped
remainder is scanned again; the final remainder is committed with
`addTextToCurrentParagraph`. -/
def FmtState.formatVerse (st : FmtState) (text : List Char) : Except PyError FmtState :=
  match h : splitAtMeta text with
  | (_, none) => Except.ok (st.addTextToCurrentParagraph text)
  | (pre, some (m, rest)) => do
    let st1 ← st.dispatchMeta m (pyStrip pre)
    st1.formatVerse (pyStrip rest)
termination_by text.length
decreasing_by
  have hlen : rest.length < text.length := by
    rw [splitAtMeta_some h]
    simp
    omega
  exact Nat.lt_of_le_of_lt (pyStrip_length_le rest) hlen

theorem formatVerse_noMeta {st : FmtState} {text pre : List Char}
    (h : splitAtMeta text = (pre, none)) :
    st.formatVerse text = Except.ok (st.addTextToCurrentParagraph text) := by
  rw [FmtState.formatVerse, h]

theorem formatVerse_meta {st : FmtState} {text pre rest : List Char} {m : Char}
    (h : splitAtMeta text = (pre, some (m, rest))) :
    st.formatVerse text =
      (st.dispatchMeta m (pyStrip pre)) >>= fun st1 =>
        st1.formatVerse (pyStrip rest) := by
  rw [FmtState.formatVerse, h]

/-- A fuel-indexed evaluator for `FmtState.formatVerse`.  The
well-founded recursion of `formatVerse` mirrors the source's loop but
does not reduce definitionally; this structurally recursive version
does, and `formatVerse_eq_fuel` shows they agree whenever the fuel
exceeds the text length. -/
def formatVerseFuel : Nat → FmtState → List Char → Except PyError FmtState
  | 0, st, _ => Except.ok st
  | fuel+1, st, text =>
    match splitAtMeta text with
    | (_, none) => Except.ok (st.addTextToCurrentParagraph text)
    | (pre, some (m, rest)) => do
      let st1 ← st.dispatchMeta m (pyStrip pre)
      formatVerseFuel fuel st1 (pyStrip rest)

theorem formatVerse_eq_fuel :
    ∀ (fuel : Nat) (st : FmtState) (text : List Char), text.length < fuel →
      st.formatVerse text = formatVerseFuel fuel st text := by
  intro fuel
  induction fuel with
  | zero => intro st text h; omega
  | succ fuel ih =>
    intro st text h
    match hsplit : splitAtMeta text with
    | (pre, none) =>
      rw [formatVerse_noMeta hsplit]
      simp [formatVerseFuel, hsplit]
    | (pre, some (m, rest)) =>
      rw [formatVerse_meta hsplit]
      have hrest : rest.length < text.length := by
        rw [splitAtMeta_some hsplit]; simp; omega
      have hstrip : (pyStrip rest).length < fuel :=
        Nat.lt_of_lt_of_le
          (Nat.lt_of_le_of_lt (pyStrip_length_le rest) hrest)
          (Nat.le_of_lt_succ h)
      simp only [formatVerseFuel, hsplit]
      cases st.dispatchMeta m (pyStrip pre) with
      | error e => rfl
      | ok st1 =>
        simp only [bind, Except.bind]
        exact ih st1 (pyStrip rest) hstrip

/-- The loop of `ConsoleVerseFormatter.formatVerses`: for each pair,
set `verseAddr` and run `_formatVerse`. -/
def FmtState.processVerses (st : FmtState) :
    List (PyAddr × List Char) → Except PyError FmtState
  | [] => Except.ok st
  | (addr, text) :: rest => do
    let st1 ← ({ st with verseAddr := some addr }).formatVerse text
    st1.processVerses rest

/-- The tail of `ConsoleVerseFormatter.formatVerses`: trim the trailing
empty paragraph (if there is one).  It reads `self.paragraphs[-1]`
unguarded: on an empty paragraph list this is a Python `IndexError`. -/
def trimTrailing (st : FmtState) : Except PyError (List Paragraph) :=
  match st.paragraphs.getLast? with
  | none => Except.error PyError.indexError
  | some p => Except.ok (if p.isEmpty then st.paragraphs.dropLast else st.paragraphs)

/-- `ConsoleVerseFormatter.formatVerses` run on a fresh formatter (as
`formatVersesForConsole` does), returning the paragraph list. -/
def formatVerses (verses : List (PyAddr × List Char)) : Except PyError (List Paragraph) := do
  let st ← initialState.processVerses verses
  trimTrailing st

/-- Fueled version of `FmtState.processVerses` (proof device only). -/
def processVersesFuel (st : FmtState) :
    List (PyAddr × List Char) → Except PyError FmtState
  | [] => Except.ok st
  | (addr, text) :: rest =>
    (formatVerseFuel (text.length + 1) { st with verseAddr := some addr } text) >>=
      fun st1 => processVersesFuel st1 rest

theorem processVerses_eq_fuel (vs : List (PyAddr × List Char)) :
    ∀ st : FmtState, st.processVerses vs = processVersesFuel st vs := by
  induction vs with
  | nil => intro st; rfl
  | cons v rest ih =>
    intro st
    obtain ⟨addr, text⟩ := v
    simp only [FmtState.processVerses, processVersesFuel,
      formatVerse_eq_fuel (text.length + 1) _ text (Nat.lt_succ_self _)]
    cases formatVerseFuel (text.length + 1) { st with verseAddr := some addr } text with
    | error e => rfl
    | ok st1 => simp only [bind, Except.bind]; exact ih st1

/-- Computable form of `formatVerses` (proof device only). -/
theorem formatVerses_eq_fuel (verses : List (PyAddr × List Char)) :
    formatVerses verses =
      (processVersesFuel initialState verses) >>= trimTrailing := by
  unfold formatVerses
  rw [processVerses_eq_fuel]

/-! ## The console renderer (`Paragraph._formatProseForConsole` and
`Paragraph._formatPoetryForConsole`) -/

/-- The ANSI dim sequence `Paragraph.DIM`. -/
def dimSeq : List Char := ("\x1b[2m".data)

/-- The ANSI normal-brightness sequence `Paragraph.NORMAL`. -/
def normalSeq : List Char := ("\x1b[22m".data)

/-- `%d` formatting of a chapter or verse number. -/
def natChars (n : Nat) : List Char := (Nat.repr n).data

/-- The inner `formatLineOfProse` of `_formatProseForConsole`.  Note
`chapter, verse = addr`: unpacking a bare integer address is a Python
`TypeError`. -/
def formatLineOfProse (useColor : Bool) (addr : Option PyAddr) (text : List Char) :
    Except PyError (List Char) :=
  match addr with
  | none => Except.ok ([] ++ ' ' :: text)
  | some (PyAddr.int _) => Except.error PyError.typeError
  | some (PyAddr.pair chapter verse) =>
    let addrToken :=
      if useColor then dimSeq ++ natChars chapter ++ ':' :: natChars verse ++ normalSeq
      else '[' :: natChars chapter ++ ':' :: natChars verse ++ [']']
    Except.ok (addrToken ++ ' ' :: text)

/-- `'%-*s' % (w, s)`: left-justify in a field of width `w`. -/
def padTo (w : Nat) (cs : List Char) : List Char :=
  cs ++ List.replicate (w - cs.length) ' '

/-- Python `str.replace` with a single-character needle. -/
def replaceChar (cs : List Char) (target : Char) (repl : List Char) : List Char :=
  cs.flatMap (fun c => if c = target then repl else [c])

/-- The inner `formatLineOfPoetry` of `_formatPoetryForConsole`.  As in
the prose case, `chapter, verse = addr` makes a bare integer address a
`TypeError`. -/
def formatLineOfPoetry (useColor : Bool) (addr : Option PyAddr) (text : List Char)
    (isFirst : Bool) : Except PyError (List Char) :=
  match addr with
  | some (PyAddr.int _) => Except.error PyError.typeError
  | none =>
    let indentSize := if isFirst then 12 else 16
    let addrToken := padTo indentSize []
    let addrToken :=
      if useColor then
        replaceChar (replaceChar addrToken '[' dimSeq) ']' (normalSeq ++ (' ' :: [' ']))
      else addrToken
    Except.ok (addrToken ++ text)
  | some (PyAddr.pair chapter verse) =>
    let addrToken := '[' :: natChars chapter ++ ':' :: natChars verse ++ [']']
    let indentSize := if isFirst then 12 else 16
    let addrToken := padTo indentSize addrToken
    let addrToken :=
      if useColor then
        replaceChar (replaceChar addrToken '[' dimSeq) ']' (normalSeq ++ (' ' :: [' ']))
      else addrToken
    Except.ok (addrToken ++ text)

/-! ## The citation parser

`bible.parseRef`, `bible._parseBookTokensGreedily` and
`bible._parseVersesToken` are exercised by src/python/test/test_bible.py
but their implementation (the `citations`, `locs` and `books` modules
imported by src/python/bible.py) is not under src/.  The definitions
below are therefore modelled from the spec (section 4.1), with the
behavior pinned down by the unit tests in
src/python/test/test_bible.py where the spec is ambiguous or at odds
with them: in particular, `parseVersesTokenTestCase.test_syntheticAndMinimal`
fixes that a sub-token without a colon is read in the prevailing
chapter context (compare the token 1:1-2 with its expected value
`Range(Point(1, 1), Point(1, 2))`). -/

/-- `bible.Point`: a chapter with an optional verse.  `Point(1)` is
`⟨1, none⟩` and `Point(1, 2)` is `⟨1, some 2⟩`. -/
structure Point where
  chapter : Nat
  verse : Option Nat
deriving DecidableEq, Repr

/-- A parsed location: `bible.Point` or `bible.Range`. -/
inductive Loc where
  | point (p : Point)
  | range (first last : Point)
deriving DecidableEq, Repr

/-- The numeric value of a string of decimal digits. -/
def natOfDigits (cs : List Char) : Nat :=
  cs.foldl (fun a c => 10 * a + (c.toNat - 48)) 0

/-- Modelled from the spec: Python `int(s)` on a chapter/verse token;
non-numeric or empty tokens raise (spec section 4.1, step 4:
malformed verse syntax raises a parse error). -/
def parseNat (cs : List Char) : Except PyError Nat :=
  if cs.isEmpty then Except.error PyError.valueError
  else if cs.all Char.isDigit then Except.ok (natOfDigits cs)
  else Except.error PyError.valueError

/-- Python `str.split(sep)` for a one-character separator (never
returns an empty list; splitting the empty string gives one empty
group). -/
def splitOnChar (sep : Char) : List Char → List (List Char)
  | [] => [[]]
  | c :: cs =>
    if c = sep then [] :: splitOnChar sep cs
    else
      match splitOnChar sep cs with
      | [] => [[c]]
      | g :: gs => (c :: g) :: gs

/-- Modelled from the spec: parsing one point sub-token (`chapter` or
`chapter:verse`), threading the prevailing chapter context as fixed by
`parseVersesTokenTestCase` (a bare number is a chapter when no chapter
context exists, and a verse of the current chapter otherwise). -/
def parsePoint (chapterCtx : Option Nat) (tok : List Char) :
    Except PyError (Point × Option Nat) :=
  match splitOnChar ':' tok with
  | [cs] => do
    let n ← parseNat cs
    match chapterCtx with
    | none => Except.ok (⟨n, none⟩, none)
    | some ch => Except.ok (⟨ch, some n⟩, some ch)
  | [cs, vs] => do
    let c ← parseNat cs
    let v ← parseNat vs
    Except.ok (⟨c, some v⟩, some c)
  | _ => Except.error PyError.valueError

/-- Modelled from the spec: one comma-separated sub-token is either a
single point or a hyphen-delimited range of two points. -/
def parseLoc (ctx : Option Nat) (sub : List Char) :
    Except PyError (Loc × Option Nat) :=
  match splitOnChar '-' sub with
  | [t] => do
    let pc ← parsePoint ctx t
    Except.ok (Loc.point pc.1, pc.2)
  | [t, u] => do
    let pc1 ← parsePoint ctx t
    let pc2 ← parsePoint pc1.2 u
    Except.ok (Loc.range pc1.1 pc2.1, pc2.2)
  | _ => Except.error PyError.valueError

/-- The left-to-right loop over comma-separated sub-tokens. -/
def parseVersesLoop (ctx : Option Nat) :
    List (List Char) → Except PyError (List Loc)
  | [] => Except.ok []
  | sub :: rest => do
    let lc ← parseLoc ctx sub
    let ls ← parseVersesLoop lc.2 rest
    Except.ok (lc.1 :: ls)

/-- Modelled from the spec: `bible._parseVersesToken` (implementation
not under src/; behavior fixed by `parseVersesTokenTestCase`).  An
empty token raises, as in `test_emptyString`. -/
def parseVersesToken (tok : List Char) : Except PyError (List Loc) :=
  if tok.isEmpty then Except.error PyError.valueError
  else parseVersesLoop none (splitOnChar ',' tok)

/-- `bible.Book` as constructed in the tests: a name and a list of
abbreviations. -/
structure Book where
  name : List Char
  abbreviations : List (List Char)
deriving DecidableEq, Repr

/-- Lower-case and remove spaces (the normalization behind
`Book.normalName`: the tests map Genesis to genesis; a
multi-word name such as Song of Songs becomes songofsongs). -/
def normalizeToken (cs : List Char) : List Char :=
  (cs.filter (fun c => c ≠ ' ')).map Char.toLower

/-- `Book.normalName`. -/
def Book.normalName (b : Book) : List Char := normalizeToken b.name

/-- `Book.normalAbbreviations`. -/
def Book.normalAbbreviations (b : Book) : List (List Char) :=
  b.abbreviations.map normalizeToken

/-- `Book.matchesToken`: case-insensitive match against the name or an
abbreviation. -/
def Book.matchesToken (b : Book) (tok : List Char) : Bool :=
  normalizeToken tok == b.normalName || (b.normalAbbreviations).contains (normalizeToken tok)

/-- The book-registry lookup (`findBook` against a list of books). -/
def findBook (registry : List Book) (tok : List Char) : Option Book :=
  registry.find? (fun b => b.matchesToken tok)

/-- Python `' '.join`. -/
def joinTokens (ts : List (List Char)) : List Char :=
  List.intercalate ([' ']) ts

/-- The longest-to-shortest countdown of the greedy book matcher: try
the leading `k` tokens, then `k - 1`, and so on. -/
def greedyAux (registry : List Book) (tokens : List (List Char)) :
    Nat → Option (Book × Nat)
  | 0 => none
  | k + 1 =>
    match findBook registry (joinTokens (tokens.take (k + 1))) with
    | some b => some (b, k + 1)
    | none => greedyAux registry tokens k

/-- Modelled from the spec: `bible._parseBookTokensGreedily`
(implementation not under src/): greedy, longest-first matching of a
leading token subsequence against the registry; returns the matched
book and the number of tokens consumed. -/
def parseBookTokensGreedily (registry : List Book) (tokens : List (List Char)) :
    Option (Book × Nat) :=
  greedyAux registry tokens tokens.length

/-- The result of `bible.parseRef`: a normalized book name and the
optional parsed verses (`None` for a whole-book citation). -/
structure Ref where
  book : List Char
  verses : Option (List Loc)
deriving DecidableEq, Repr

/-- Python `str.split()` with no argument: split on whitespace runs. -/
def pySplitWhitespace (cs : List Char) : List (List Char) :=
  (splitOnChar ' ' cs).filter (fun t => !t.isEmpty)

/-- Modelled from the spec: `bible.parseRef` (implementation not under
src/): tokenize, match the book greedily, and parse any remaining
tokens as the verses expression; an empty citation raises
(`test_emptyString`), and so does an unmatched book. -/
def parseRef (registry : List Book) (citation : List Char) : Except PyError Ref :=
  let tokens := pySplitWhitespace citation
  if tokens.isEmpty then Except.error PyError.valueError
  else
    match parseBookTokensGreedily registry tokens with
    | none => Except.error PyError.valueError
    | some bk =>
      let rest := tokens.drop bk.2
      if rest.isEmpty then Except.ok ⟨bk.1.normalName, none⟩
      else do
        let ls ← parseVersesToken (joinTokens rest)
        Except.ok ⟨bk.1.normalName, some ls⟩

/-- The books needed by the tests that the claims cite
(`test_songOfSongs` and `test_syntheticAndMinimal`). -/
def testRegistry : List Book :=
  [Book.mk ("Genesis".data) [("Gn".data)],
   Book.mk ("1 Samuel".data) [("1 Sm".data)],
   Book.mk ("Song of Songs".data) [("Song".data)]]

/-! ## Counting committed lines

The key quantity for the non-emptiness claims: the total number of
lines committed across all paragraphs.  Committing a non-empty segment
adds exactly one line; every other formatter operation leaves the count
unchanged (paragraphs are only ever popped when empty). -/

/-- Total number of lines over a paragraph list. -/
def linesCount (ps : List Paragraph) : Nat :=
  (ps.map (fun p => p.lines.length)).sum

theorem linesCount_append (xs ys : List Paragraph) :
    linesCount (xs ++ ys) = linesCount xs + linesCount ys := by
  simp [linesCount]

theorem linesCount_addToLast (a : Option PyAddr) (t : List Char) :
    ∀ ps : List Paragraph, ps ≠ [] →
      linesCount (addToLast ps a t) = linesCount ps + 1 := by
  intro ps
  induction ps with
  | nil => intro h; exact absurd rfl h
  | cons p rest ih =>
    intro _
    cases rest with
    | nil => simp [addToLast, linesCount, Paragraph.addText]
    | cons q rest2 =>
      have := ih (by simp)
      simp only [addToLast, linesCount, List.map_cons, List.sum_cons] at this ⊢
      omega

theorem linesCount_dropLast_of_isEmpty {ps : List Paragraph} {p : Paragraph}
    (h : ps.getLast? = some p) (he : p.isEmpty = true) :
    linesCount ps.dropLast = linesCount ps := by
  have hne : ps ≠ [] := by
    intro hn; rw [hn] at h; simp at h
  have hdec : ps.dropLast ++ [ps.getLast hne] = ps := List.dropLast_append_getLast hne
  have hlast : ps.getLast hne = p := by
    have := List.getLast?_eq_getLast ps hne
    rw [h] at this
    exact (Option.some.injEq _ _ ▸ this.symm)
  have hlines : p.lines.length = 0 := by
    simpa [Paragraph.isEmpty] using he
  calc linesCount ps.dropLast
      = linesCount ps.dropLast + p.lines.length := by omega
    _ = linesCount (ps.dropLast ++ [p]) := by simp [linesCount_append, linesCount]
    _ = linesCount ps := by rw [← hlast, hdec]

theorem linesCount_addText (st : FmtState) (t : List Char) :
    linesCount (st.addTextToCurrentParagraph t).paragraphs =
      linesCount st.paragraphs + (if 0 < t.length then 1 else 0) := by
  unfold FmtState.addTextToCurrentParagraph
  by_cases ht : 0 < t.length
  · simp only [ht, if_true]
    by_cases hp : st.paragraphs.length = 0
    · have : st.paragraphs = [] := List.length_eq_zero.mp hp
      simp [hp, this, addToLast, linesCount, Paragraph.addText]
    · have hne : st.paragraphs ≠ [] := by
        intro h; rw [h] at hp; simp at hp
      simp only [hp, if_false]
      exact linesCount_addToLast _ _ _ hne
  · simp [ht]

theorem linesCount_appendParagraph (st : FmtState) (f : Fmt) :
    linesCount (st.appendParagraph f).paragraphs = linesCount st.paragraphs := by
  simp [FmtState.appendParagraph, linesCount_append, linesCount]

theorem linesCount_popEmptyLast (st : FmtState) :
    linesCount (st.popEmptyLast).paragraphs = linesCount st.paragraphs := by
  unfold FmtState.popEmptyLast
  match h : st.paragraphs.getLast? with
  | none => simp [h]
  | some p =>
    simp only [h]
    by_cases he : p.isEmpty
    · simp only [he, if_true]
      exact linesCount_dropLast_of_isEmpty h he
    · simp [he]

theorem linesCount_handlePoetryLineBreak (st : FmtState) (seg : List Char) :
    linesCount (st.handlePoetryLineBreak seg).paragraphs =
      linesCount st.paragraphs + (if 0 < seg.length then 1 else 0) := by
  unfold FmtState.handlePoetryLineBreak
  by_cases h : st.currentParagraphIsNotPoetry
  · simp only [h, if_true]
    rw [linesCount_addText, linesCount_appendParagraph]
  · have h' : st.currentParagraphIsNotPoetry = false := by simpa using h
    simp only [h', Bool.false_eq_true, if_false]
    rw [linesCount_addText]

theorem linesCount_handlePoetryBegin {st st' : FmtState} {seg : List Char}
    (h : st.handlePoetryBegin seg = Except.ok st') :
    linesCount st'.paragraphs =
      linesCount st.paragraphs + (if 0 < seg.length then 1 else 0) := by
  unfold FmtState.handlePoetryBegin at h
  by_cases hc : st.currentParagraphIsPoetry
  · simp [hc] at h
  · have hc' : st.currentParagraphIsPoetry = false := by simpa using hc
    simp only [hc', Bool.false_eq_true, if_false, Except.ok.injEq] at h
    rw [← h, linesCount_appendParagraph, linesCount_popEmptyLast, linesCount_addText]

theorem linesCount_handlePoetryEnd {st st' : FmtState} {seg : List Char}
    (h : st.handlePoetryEnd seg = Except.ok st') :
    linesCount st'.paragraphs =
      linesCount st.paragraphs + (if 0 < seg.length then 1 else 0) := by
  unfold FmtState.handlePoetryEnd at h
  by_cases hc : st.currentParagraphIsProse
  · simp [hc] at h
  · have hc' : st.currentParagraphIsProse = false := by simpa using hc
    simp only [hc', Bool.false_eq_true, if_false, Except.ok.injEq] at h
    rw [← h, linesCount_appendParagraph, linesCount_addText]

theorem linesCount_handleParagraphBreak {st st' : FmtState} {seg : List Char}
    (h : st.handleParagraphBreak seg = Except.ok st') :
    linesCount st'.paragraphs =
      linesCount st.paragraphs + (if 0 < seg.length then 1 else 0) := by
  unfold FmtState.handleParagraphBreak at h
  by_cases hc : st.currentParagraphIsNotProse
  · simp [hc] at h
  · have hc' : st.currentParagraphIsNotProse = false := by simpa using hc
    simp only [hc', Bool.false_eq_true, if_false] at h
    match hl : (st.addTextToCurrentParagraph seg).paragraphs.getLast? with
    | none => rw [hl] at h; exact absurd h (by simp)
    | some p =>
      rw [hl] at h
      simp only [Except.ok.injEq] at h
      by_cases hp : p.isEmpty
      · simp only [hp, Bool.not_true, Bool.false_eq_true, if_false] at h
        rw [← h, linesCount_addText]
      · have hp2 : (!p.isEmpty) = true := by simp [hp]
        simp only [hp2, if_true] at h
        rw [← h, linesCount_appendParagraph, linesCount_addText]

theorem linesCount_dispatchMeta_ok {st st' : FmtState} {c : Char} {seg : List Char}
    (h : st.dispatchMeta c seg = Except.ok st') :
    linesCount st.paragraphs ≤ linesCount st'.paragraphs := by
  unfold FmtState.dispatchMeta at h
  by_cases h1 : c = '['
  · simp only [h1, if_true] at h
    rw [linesCount_handlePoetryBegin h]; omega
  · simp only [h1, if_false] at h
    by_cases h2 : c = ']'
    · simp only [h2, if_true] at h
      rw [linesCount_handlePoetryEnd h]; omega
    · simp only [h2, if_false] at h
      by_cases h3 : c = '/'
      · simp only [h3, if_true, Except.ok.injEq] at h
        rw [← h, linesCount_handlePoetryLineBreak]; omega
      · simp only [h3, if_false] at h
        by_cases h4 : c = '\\'
        · simp only [h4, if_true] at h
          rw [linesCount_handleParagraphBreak h]; omega
        · simp only [h4, if_false, Except.ok.injEq] at h
          rw [← h]

theorem linesCount_dispatchMeta_content {st st' : FmtState} {c : Char} {seg : List Char}
    (h : st.dispatchMeta c seg = Except.ok st') (hm : isMetaChar c = true)
    (hs : seg ≠ []) :
    linesCount st'.paragraphs = linesCount st.paragraphs + 1 := by
  have hlen : 0 < seg.length := List.length_pos.mpr hs
  unfold FmtState.dispatchMeta at h
  by_cases h1 : c = '['
  · simp only [h1, if_true] at h
    rw [linesCount_handlePoetryBegin h]; simp [hlen]
  · simp only [h1, if_false] at h
    by_cases h2 : c = ']'
    · simp only [h2, if_true] at h
      rw [linesCount_handlePoetryEnd h]; simp [hlen]
    · simp only [h2, if_false] at h
      by_cases h3 : c = '/'
      · simp only [h3, if_true, Except.ok.injEq] at h
        rw [← h, linesCount_handlePoetryLineBreak]; simp [hlen]
      · simp only [h3, if_false] at h
        by_cases h4 : c = '\\'
        · simp only [h4, if_true] at h
          rw [linesCount_handleParagraphBreak h]; simp [hlen]
        · exfalso
          simp [isMetaChar, h1, h2, h3, h4] at hm

/-! ## Content characters survive the pipeline -/

/-- A character that is neither a structural marker nor whitespace:
such a character necessarily ends up inside some committed segment. -/
def isContentChar (c : Char) : Bool :=
  !isMetaChar c && !isPySpace c

/-- Some character of the text is a content character. -/
def hasContentChar (text : List Char) : Bool :=
  text.any isContentChar

/-- Some verse text of the sequence has a content character. -/
def versesHaveContent (verses : List (PyAddr × List Char)) : Bool :=
  verses.any (fun v => hasContentChar v.2)

theorem mem_dropWhile_of_neg {p : Char → Bool} {c : Char} :
    ∀ {xs : List Char}, c ∈ xs → p c = false → c ∈ xs.dropWhile p := by
  intro xs hc hp
  induction xs with
  | nil => simp at hc
  | cons d ds ih =>
    rw [List.dropWhile_cons]
    by_cases hd : p d
    · simp only [hd, if_true]
      rcases List.mem_cons.mp hc with h | h
      · subst h; rw [hp] at hd; simp at hd
      · exact ih h
    · have hd' : p d = false := by simpa using hd
      simp only [hd', Bool.false_eq_true, if_false]
      exact hc

theorem mem_pyStrip {c : Char} {xs : List Char}
    (hc : c ∈ xs) (hp : isPySpace c = false) : c ∈ pyStrip xs := by
  unfold pyStrip
  rw [List.mem_reverse]
  apply mem_dropWhile_of_neg _ hp
  rw [List.mem_reverse]
  exact mem_dropWhile_of_neg hc hp

theorem hasContentChar_pyStrip {xs : List Char}
    (h : hasContentChar xs = true) : hasContentChar (pyStrip xs) = true := by
  rw [hasContentChar, List.any_eq_true] at h ⊢
  obtain ⟨c, hc, hprop⟩ := h
  refine ⟨c, ?_, hprop⟩
  have hsp : isPySpace c = false := by
    rw [isContentChar, Bool.and_eq_true] at hprop
    simpa using hprop.2
  exact mem_pyStrip hc hsp

theorem pyStrip_ne_nil_of_content {xs : List Char}
    (h : hasContentChar xs = true) : pyStrip xs ≠ [] := by
  have := hasContentChar_pyStrip h
  rw [hasContentChar, List.any_eq_true] at this
  obtain ⟨c, hc, _⟩ := this
  intro hnil
  rw [hnil] at hc
  simp at hc

theorem splitAtMeta_snd_isMeta {cs : List Char} :
    ∀ {rest : List Char} {m : Char},
      (splitAtMeta cs).2 = some (m, rest) → isMetaChar m = true := by
  induction cs with
  | nil => intro rest m h; simp [splitAtMeta] at h
  | cons c cs ih =>
    intro rest m h
    by_cases hc : isMetaChar c
    · simp [splitAtMeta, hc] at h
      rw [← h.1]; exact hc
    · simp [splitAtMeta, hc] at h
      exact ih h

/-- A successful `formatVerseFuel` run never loses committed lines. -/
theorem formatVerseFuel_mono :
    ∀ (fuel : Nat) (st : FmtState) (text : List Char) (st' : FmtState),
      formatVerseFuel fuel st text = Except.ok st' →
      linesCount st.paragraphs ≤ linesCount st'.paragraphs := by
  intro fuel
  induction fuel with
  | zero =>
    intro st text st' h
    simp [formatVerseFuel] at h
    rw [← h]
  | succ fuel ih =>
    intro st text st' h
    rw [formatVerseFuel] at h
    match hsplit : splitAtMeta text with
    | (pre, none) =>
      rw [hsplit] at h
      simp only [Except.ok.injEq] at h
      rw [← h, linesCount_addText]
      omega
    | (pre, some (m, rest)) =>
      rw [hsplit] at h
      dsimp only at h
      match hd : st.dispatchMeta m (pyStrip pre) with
      | Except.error e => rw [hd] at h; simp [bind, Except.bind] at h
      | Except.ok st1 =>
        rw [hd] at h
        simp only [bind, Except.bind] at h
        exact Nat.le_trans (linesCount_dispatchMeta_ok hd) (ih st1 (pyStrip rest) st' h)

/-- A successful `formatVerseFuel` run over a text with a content
character, given enough fuel, commits at least one line. -/
theorem formatVerseFuel_content :
    ∀ (fuel : Nat) (st : FmtState) (text : List Char) (st' : FmtState),
      text.length < fuel → hasContentChar text = true →
      formatVerseFuel fuel st text = Except.ok st' →
      linesCount st.paragraphs < linesCount st'.paragraphs := by
  intro fuel
  induction fuel with
  | zero => intro st text st' hf; omega
  | succ fuel ih =>
    intro st text st' hf hcontent h
    rw [formatVerseFuel] at h
    match hsplit : splitAtMeta text with
    | (pre, none) =>
      rw [hsplit] at h
      simp only [Except.ok.injEq] at h
      have htext : 0 < text.length := by
        rw [hasContentChar, List.any_eq_true] at hcontent
        obtain ⟨c, hc, _⟩ := hcontent
        exact List.length_pos.mpr (by intro hn; rw [hn] at hc; simp at hc)
      rw [← h, linesCount_addText]
      simp [htext]
    | (pre, some (m, rest)) =>
      rw [hsplit] at h
      dsimp only at h
      match hd : st.dispatchMeta m (pyStrip pre) with
      | Except.error e => rw [hd] at h; simp [bind, Except.bind] at h
      | Except.ok st1 =>
        rw [hd] at h
        simp only [bind, Except.bind] at h
        have heq : text = pre ++ m :: rest := splitAtMeta_some hsplit
        have hsnd : (splitAtMeta text).2 = some (m, rest) := by rw [hsplit]
        have hm : isMetaChar m = true := splitAtMeta_snd_isMeta hsnd
        -- The content character is in `pre` or in `rest` (it cannot be
        -- the metacharacter `m`).
        rw [hasContentChar, List.any_eq_true] at hcontent
        obtain ⟨c, hc, hprop⟩ := hcontent
        rw [heq] at hc
        rcases List.mem_append.mp hc with hcpre | hcrest
        · -- committed as part of the stripped segment before the marker
          have hseg : pyStrip pre ≠ [] := by
            apply pyStrip_ne_nil_of_content
            rw [hasContentChar, List.any_eq_true]
            exact ⟨c, hcpre, hprop⟩
          have h1 : linesCount st1.paragraphs = linesCount st.paragraphs + 1 :=
            linesCount_dispatchMeta_content hd hm hseg
          have h2 : linesCount st1.paragraphs ≤ linesCount st'.paragraphs :=
            formatVerseFuel_mono fuel st1 (pyStrip rest) st' h
          omega
        · rcases List.mem_cons.mp hcrest with hceq | hcrest2
          · exfalso
            rw [isContentChar, Bool.and_eq_true] at hprop
            have h1 := hprop.1
            rw [hceq, hm] at h1
            simp at h1
          · -- the content character survives in the stripped remainder
            have hlen : (pyStrip rest).length < fuel := by
              have h1 : rest.length < text.length := by
                rw [heq]; simp; omega
              have h2 := pyStrip_length_le rest
              omega
            have hcont2 : hasContentChar (pyStrip rest) = true := by
              apply hasContentChar_pyStrip
              rw [hasContentChar, List.any_eq_true]
              exact ⟨c, hcrest2, hprop⟩
            have h1 : linesCount st.paragraphs ≤ linesCount st1.paragraphs :=
              linesCount_dispatchMeta_ok hd
            have h2 : linesCount st1.paragraphs < linesCount st'.paragraphs :=
              ih st1 (pyStrip rest) st' hlen hcont2 h
            omega

/-- Transfer of `formatVerseFuel_mono` to `formatVerse`. -/
theorem formatVerse_mono {st st' : FmtState} {text : List Char}
    (h : st.formatVerse text = Except.ok st') :
    linesCount st.paragraphs ≤ linesCount st'.paragraphs := by
  rw [formatVerse_eq_fuel (text.length + 1) st text (Nat.lt_succ_self _)] at h
  exact formatVerseFuel_mono _ _ _ _ h

/-- Transfer of `formatVerseFuel_content` to `formatVerse`. -/
theorem formatVerse_content {st st' : FmtState} {text : List Char}
    (hcontent : hasContentChar text = true)
    (h : st.formatVerse text = Except.ok st') :
    linesCount st.paragraphs < linesCount st'.paragraphs := by
  rw [formatVerse_eq_fuel (text.length + 1) st text (Nat.lt_succ_self _)] at h
  exact formatVerseFuel_content _ _ _ _ (Nat.lt_succ_self _) hcontent h

/-- A successful verse-sequence run never loses committed lines. -/
theorem processVerses_mono :
    ∀ (vs : List (PyAddr × List Char)) (st st' : FmtState),
      st.processVerses vs = Except.ok st' →
      linesCount st.paragraphs ≤ linesCount st'.paragraphs := by
  intro vs
  induction vs with
  | nil =>
    intro st st' h
    simp [FmtState.processVerses] at h
    rw [← h]
  | cons v rest ih =>
    intro st st' h
    obtain ⟨addr, text⟩ := v
    rw [FmtState.processVerses] at h
    match h1 : ({ st with verseAddr := some addr } : FmtState).formatVerse text with
    | Except.error e => rw [h1] at h; simp [bind, Except.bind] at h
    | Except.ok st1 =>
      rw [h1] at h
      simp only [bind, Except.bind] at h
      have h2 := formatVerse_mono h1
      rw [show ({ st with verseAddr := some addr } : FmtState).paragraphs
          = st.paragraphs from rfl] at h2
      exact Nat.le_trans h2 (ih st1 st' h)

/-- If some verse of a successfully processed sequence has a content
character, at least one line has been committed. -/
theorem processVerses_content :
    ∀ (vs : List (PyAddr × List Char)) (st st' : FmtState),
      versesHaveContent vs = true →
      st.processVerses vs = Except.ok st' →
      linesCount st.paragraphs < linesCount st'.paragraphs := by
  intro vs
  induction vs with
  | nil => intro st st' hc; simp [versesHaveContent] at hc
  | cons v rest ih =>
    intro st st' hc h
    obtain ⟨addr, text⟩ := v
    rw [FmtState.processVerses] at h
    match h1 : ({ st with verseAddr := some addr } : FmtState).formatVerse text with
    | Except.error e => rw [h1] at h; simp [bind, Except.bind] at h
    | Except.ok st1 =>
      rw [h1] at h
      simp only [bind, Except.bind] at h
      rw [versesHaveContent, List.any_eq_true] at hc
      rcases hc with ⟨v2, hv2, hcont⟩
      rcases List.mem_cons.mp hv2 with hveq | hvrest
      · have hcont2 : hasContentChar text = true := by rw [hveq] at hcont; exact hcont
        have h2 := formatVerse_content hcont2 h1
        rw [show ({ st with verseAddr := some addr } : FmtState).paragraphs
            = st.paragraphs from rfl] at h2
        have h3 := processVerses_mono rest st1 st' h
        omega
      · have h2 := formatVerse_mono h1
        rw [show ({ st with verseAddr := some addr } : FmtState).paragraphs
            = st.paragraphs from rfl] at h2
        have h3 : linesCount st1.paragraphs < linesCount st'.paragraphs := by
          apply ih st1 st' _ h
          rw [versesHaveContent, List.any_eq_true]
          exact ⟨v2, hvrest, hcont⟩
        omega


/-! ## Splitting and digit lemmas for the verses grammar -/

theorem splitOnChar_no_sep {sep : Char} :
    ∀ {cs : List Char}, (∀ c ∈ cs, c ≠ sep) → splitOnChar sep cs = [cs] := by
  intro cs
  induction cs with
  | nil => intro _; rfl
  | cons c cs ih =>
    intro h
    have hc : c ≠ sep := h c (by simp)
    have hrest : ∀ x ∈ cs, x ≠ sep := fun x hx => h x (by simp [hx])
    rw [splitOnChar]
    simp only [hc, if_false]
    rw [ih hrest]

theorem splitOnChar_append {sep : Char} :
    ∀ {cs ds : List Char}, (∀ c ∈ cs, c ≠ sep) →
      splitOnChar sep (cs ++ sep :: ds) = cs :: splitOnChar sep ds := by
  intro cs ds
  induction cs with
  | nil => intro _; simp [splitOnChar]
  | cons c cs ih =>
    intro h
    have hc : c ≠ sep := h c (by simp)
    have hrest : ∀ x ∈ cs, x ≠ sep := fun x hx => h x (by simp [hx])
    rw [List.cons_append, splitOnChar]
    simp only [hc, if_false]
    rw [ih hrest]

theorem digit_ne_sep {c sep : Char} (h : c.isDigit = true)
    (hs : sep.isDigit = false) : c ≠ sep := by
  intro he
  rw [he, hs] at h
  simp at h

theorem parseNat_digits {ds : List Char} (h1 : ds ≠ [])
    (h2 : ∀ c ∈ ds, c.isDigit = true) :
    parseNat ds = Except.ok (natOfDigits ds) := by
  unfold parseNat
  have he : ds.isEmpty = false := by
    cases ds with
    | nil => exact absurd rfl h1
    | cons c cs => rfl
  have ha : ds.all Char.isDigit = true := List.all_eq_true.mpr h2
  simp [he, ha]

theorem parsePoint_bare_digits {ds : List Char} (h1 : ds ≠ [])
    (h2 : ∀ c ∈ ds, c.isDigit = true) :
    parsePoint none ds = Except.ok (⟨natOfDigits ds, none⟩, none) := by
  have hsp : splitOnChar ':' ds = [ds] :=
    splitOnChar_no_sep (fun c hc => digit_ne_sep (h2 c hc) (by decide))
  unfold parsePoint
  rw [hsp]
  dsimp only
  rw [parseNat_digits h1 h2]
  rfl

theorem parseLoc_bare_digits {ds : List Char} (h1 : ds ≠ [])
    (h2 : ∀ c ∈ ds, c.isDigit = true) :
    parseLoc none ds = Except.ok (Loc.point ⟨natOfDigits ds, none⟩, none) := by
  have hsp : splitOnChar '-' ds = [ds] :=
    splitOnChar_no_sep (fun c hc => digit_ne_sep (h2 c hc) (by decide))
  unfold parseLoc
  rw [hsp]
  dsimp only
  rw [parsePoint_bare_digits h1 h2]
  rfl

/-! ## Greedy matching is longest-first -/

theorem greedyAux_maximal {registry : List Book} {tokens : List (List Char)} :
    ∀ {k : Nat} {b : Book} {n : Nat}, greedyAux registry tokens k = some (b, n) →
      n ≤ k ∧ ∀ j, n < j → j ≤ k →
        findBook registry (joinTokens (tokens.take j)) = none := by
  intro k
  induction k with
  | zero => intro b n h; simp [greedyAux] at h
  | succ k ih =>
    intro b n h
    rw [greedyAux] at h
    match hf : findBook registry (joinTokens (tokens.take (k + 1))) with
    | some b2 =>
      rw [hf] at h
      simp only [Option.some.injEq, Prod.mk.injEq] at h
      refine ⟨by omega, ?_⟩
      intro j hj1 hj2
      omega
    | none =>
      rw [hf] at h
      obtain ⟨hle, hmax⟩ := ih h
      refine ⟨by omega, ?_⟩
      intro j hj1 hj2
      by_cases hjk : j ≤ k
      · exact hmax j hj1 hjk
      · have : j = k + 1 := by omega
        rw [this]
        exact hf


/-! ## Claim theorems for the citation parser -/

theorem isEmpty_false_of_ne_nil {l : List Char} (h : l ≠ []) : l.isEmpty = false := by
  cases l with
  | nil => exact absurd rfl h
  | cons c cs => rfl

theorem parseVersesToken_single_digits {ds : List Char} (h1 : ds ≠ [])
    (h2 : ∀ c ∈ ds, c.isDigit = true) :
    parseVersesToken ds = Except.ok [Loc.point ⟨natOfDigits ds, none⟩] := by
  unfold parseVersesToken
  rw [isEmpty_false_of_ne_nil h1]
  simp only [Bool.false_eq_true, if_false]
  rw [splitOnChar_no_sep (fun c hc => digit_ne_sep (h2 c hc) (by decide))]
  rw [parseVersesLoop, parseLoc_bare_digits h1 h2]
  rfl

theorem parseVersesToken_pair_digits {ds es : List Char} {sep : Char}
    (h1 : ds ≠ []) (h2 : es ≠ [])
    (hd : ∀ c ∈ ds, c.isDigit = true) (he : ∀ c ∈ es, c.isDigit = true)
    (hsep : sep = '-' ∨ sep = ',') :
    parseVersesToken (ds ++ sep :: es) =
      (if sep = '-' then
        Except.ok [Loc.range ⟨natOfDigits ds, none⟩ ⟨natOfDigits es, none⟩]
      else
        Except.ok [Loc.point ⟨natOfDigits ds, none⟩,
                   Loc.point ⟨natOfDigits es, none⟩]) := by
  have hne : ds ++ sep :: es ≠ [] := by simp
  unfold parseVersesToken
  rw [isEmpty_false_of_ne_nil hne]
  simp only [Bool.false_eq_true, if_false]
  rcases hsep with hs | hs
  · subst hs
    simp only [if_pos]
    have hnocomma : ∀ c ∈ ds ++ '-' :: es, c ≠ ',' := by
      intro c hc
      rcases List.mem_append.mp hc with h | h
      · exact digit_ne_sep (hd c h) (by decide)
      · rcases List.mem_cons.mp h with h | h
        · rw [h]; decide
        · exact digit_ne_sep (he c h) (by decide)
    rw [splitOnChar_no_sep hnocomma]
    rw [parseVersesLoop]
    have hsp : splitOnChar '-' (ds ++ '-' :: es) = [ds, es] := by
      rw [splitOnChar_append (fun c hc => digit_ne_sep (hd c hc) (by decide))]
      rw [splitOnChar_no_sep (fun c hc => digit_ne_sep (he c hc) (by decide))]
    unfold parseLoc
    rw [hsp]
    dsimp only
    rw [parsePoint_bare_digits h1 hd]
    simp only [bind, Except.bind]
    rw [parsePoint_bare_digits h2 he]
    rfl
  · subst hs
    simp only [if_neg (by decide : ¬(',' = '-'))]
    have hsp : splitOnChar ',' (ds ++ ',' :: es) = [ds, es] := by
      rw [splitOnChar_append (fun c hc => digit_ne_sep (hd c hc) (by decide))]
      rw [splitOnChar_no_sep (fun c hc => digit_ne_sep (he c hc) (by decide))]
    rw [hsp]
    rw [parseVersesLoop, parseLoc_bare_digits h1 hd]
    simp only [bind, Except.bind]
    rw [parseVersesLoop, parseLoc_bare_digits h2 he]
    rfl

/-- C8: for all-digit tokens `N`, the shapes `N`, `N-M` and `N,M` parse
to a single Point, a Range of two Points, and two Points respectively,
and the cross-chapter token 1:1-2:1 parses to one Range (not two
Points), exactly as `parseVersesTokenTestCase.test_syntheticAndMinimal`
expects. -/
theorem c8_verses_token_shapes (ds es : List Char)
    (h1 : ds ≠ []) (h2 : es ≠ [])
    (hd : ∀ c ∈ ds, c.isDigit = true) (he : ∀ c ∈ es, c.isDigit = true) :
    parseVersesToken ds = Except.ok [Loc.point ⟨natOfDigits ds, none⟩]
    ∧ parseVersesToken (ds ++ '-' :: es) =
        Except.ok [Loc.range ⟨natOfDigits ds, none⟩ ⟨natOfDigits es, none⟩]
    ∧ parseVersesToken (ds ++ ',' :: es) =
        Except.ok [Loc.point ⟨natOfDigits ds, none⟩,
                   Loc.point ⟨natOfDigits es, none⟩]
    ∧ parseVersesToken ("1:1-2:1".data) =
        Except.ok [Loc.range ⟨1, some 1⟩ ⟨2, some 1⟩] := by
  refine ⟨parseVersesToken_single_digits h1 hd, ?_, ?_, by rfl⟩
  · have := parseVersesToken_pair_digits h1 h2 hd he (Or.inl rfl)
    simpa using this
  · have := parseVersesToken_pair_digits h1 h2 hd he (Or.inr rfl)
    simpa using this

/-- Witness for C8 at ds = 1 and es = 2. -/
theorem c8_witness :
    parseVersesToken ("1".data) = Except.ok [Loc.point ⟨1, none⟩]
    ∧ parseVersesToken ("1-2".data) =
        Except.ok [Loc.range ⟨1, none⟩ ⟨2, none⟩]
    ∧ parseVersesToken ("1,2".data) =
        Except.ok [Loc.point ⟨1, none⟩, Loc.point ⟨2, none⟩]
    ∧ parseVersesToken ("1:1-2:1".data) =
        Except.ok [Loc.range ⟨1, some 1⟩ ⟨2, some 1⟩] :=
  c8_verses_token_shapes (("1".data)) (("2".data))
    (by decide) (by decide) (by decide) (by decide)

/-- C2 counterexample: the claim predicts that in 1:1-2 the end point
takes chapter 2 as literally written; in fact (as the repository's own
test fixes, test_bible.py lines 463-465) the end point is
`Point(1, 2)`: chapter 1 is inherited from the start point and the
written digit 2 is the verse. -/
theorem c2_counterexample :
    parseVersesToken ("1:1-2".data) =
      Except.ok [Loc.range ⟨1, some 1⟩ ⟨1, some 2⟩]
    ∧ (Point.mk 1 (some 2)).chapter = 1
    ∧ parseVersesToken ("1:1-2".data) ≠
        Except.ok [Loc.range ⟨1, some 1⟩ ⟨2, none⟩] := by
  refine ⟨by rfl, by rfl, by decide⟩

/-- C2 (amended): when the end point of a range omits the colon, its
digits are read as a verse in the prevailing chapter context, i.e. the
start point's chapter is inherited: `c:v-w` parses to
`Range(Point(c, v), Point(c, w))`; in particular 1:1-2 yields a Range
ending at `Point(1, 2)`. -/
theorem c2_amended_end_point_inherits_chapter (cs vs ws : List Char)
    (h1 : cs ≠ []) (h2 : vs ≠ []) (h3 : ws ≠ [])
    (hc : ∀ c ∈ cs, c.isDigit = true) (hv : ∀ c ∈ vs, c.isDigit = true)
    (hw : ∀ c ∈ ws, c.isDigit = true) :
    parseVersesToken (cs ++ ':' :: vs ++ '-' :: ws) =
      Except.ok [Loc.range ⟨natOfDigits cs, some (natOfDigits vs)⟩
                           ⟨natOfDigits cs, some (natOfDigits ws)⟩]
    ∧ parseVersesToken ("1:1-2".data) =
        Except.ok [Loc.range ⟨1, some 1⟩ ⟨1, some 2⟩] := by
  constructor
  · have hne : cs ++ ':' :: vs ++ '-' :: ws ≠ [] := by simp
    unfold parseVersesToken
    rw [isEmpty_false_of_ne_nil hne]
    simp only [Bool.false_eq_true, if_false]
    have hnocomma : ∀ c ∈ cs ++ ':' :: vs ++ '-' :: ws, c ≠ ',' := by
      intro c hcm
      rcases List.mem_append.mp hcm with h | h
      · rcases List.mem_append.mp h with h2 | h2
        · exact digit_ne_sep (hc c h2) (by decide)
        · rcases List.mem_cons.mp h2 with h3 | h3
          · rw [h3]; decide
          · exact digit_ne_sep (hv c h3) (by decide)
      · rcases List.mem_cons.mp h with h2 | h2
        · rw [h2]; decide
        · exact digit_ne_sep (hw c h2) (by decide)
    rw [splitOnChar_no_sep hnocomma]
    rw [parseVersesLoop]
    have hsphyphen :
        splitOnChar '-' (cs ++ ':' :: vs ++ '-' :: ws) = [cs ++ ':' :: vs, ws] := by
      have hpre : ∀ c ∈ cs ++ ':' :: vs, c ≠ '-' := by
        intro c hcm
        rcases List.mem_append.mp hcm with h | h
        · exact digit_ne_sep (hc c h) (by decide)
        · rcases List.mem_cons.mp h with h | h
          · rw [h]; decide
          · exact digit_ne_sep (hv c h) (by decide)
      rw [splitOnChar_append hpre]
      rw [splitOnChar_no_sep (fun c hcm => digit_ne_sep (hw c hcm) (by decide))]
    unfold parseLoc
    rw [hsphyphen]
    dsimp only
    have hpoint1 : parsePoint none (cs ++ ':' :: vs) =
        Except.ok (⟨natOfDigits cs, some (natOfDigits vs)⟩, some (natOfDigits cs)) := by
      unfold parsePoint
      rw [splitOnChar_append (fun c hcm => digit_ne_sep (hc c hcm) (by decide))]
      rw [splitOnChar_no_sep (fun c hcm => digit_ne_sep (hv c hcm) (by decide))]
      dsimp only
      rw [parseNat_digits h1 hc]
      simp only [bind, Except.bind]
      rw [parseNat_digits h2 hv]
    rw [hpoint1]
    simp only [bind, Except.bind]
    have hpoint2 : parsePoint (some (natOfDigits cs)) ws =
        Except.ok (⟨natOfDigits cs, some (natOfDigits ws)⟩, some (natOfDigits cs)) := by
      unfold parsePoint
      rw [splitOnChar_no_sep (fun c hcm => digit_ne_sep (hw c hcm) (by decide))]
      dsimp only
      rw [parseNat_digits h3 hw]
      rfl
    rw [hpoint2]
    rfl
  · rfl

/-- Witness for C2 (amended) at 1:1-2. -/
theorem c2_amended_witness :
    parseVersesToken ("1:1-2".data) =
      Except.ok [Loc.range ⟨1, some 1⟩ ⟨1, some 2⟩] :=
  (c2_amended_end_point_inherits_chapter (("1".data)) (("1".data)) (("2".data))
    (by decide) (by decide) (by decide)
    (by decide) (by decide) (by decide)).2

/-- C7: book matching is greedy and longest-first: the citation
song of songs 1:2-3:4 resolves to the three-word book (consuming three
tokens, leaving exactly the verses expression), not to the one-word
abbreviation song; and whenever the greedy matcher consumes `n` tokens,
no longer leading token subsequence matches any registry entry. -/
theorem c7_greedy_book_matching :
    parseRef testRegistry ("song of songs 1:2-3:4".data) =
      Except.ok ⟨("songofsongs".data), some [Loc.range ⟨1, some 2⟩ ⟨3, some 4⟩]⟩
    ∧ parseBookTokensGreedily testRegistry
        (pySplitWhitespace ("song of songs 1:2-3:4".data)) =
      some (Book.mk ("Song of Songs".data) [("Song".data)], 3)
    ∧ (∀ (tokens : List (List Char)) (b : Book) (n : Nat),
        parseBookTokensGreedily testRegistry tokens = some (b, n) →
        ∀ j, n < j → j ≤ tokens.length →
          findBook testRegistry (joinTokens (tokens.take j)) = none) := by
  refine ⟨by rfl, by rfl, ?_⟩
  intro tokens b n h j hj1 hj2
  exact (greedyAux_maximal h).2 j hj1 hj2

/-- Witness for C7's longest-first conjunct: after the three-token
match of song of songs, the four-token prefix indeed matches no book. -/
theorem c7_witness :
    findBook testRegistry
      (joinTokens ((pySplitWhitespace ("song of songs 1:2-3:4".data)).take 4)) =
      none :=
  c7_greedy_book_matching.2.2
    (pySplitWhitespace ("song of songs 1:2-3:4".data))
    (Book.mk ("Song of Songs".data) [("Song".data)]) 3
    (by rfl) 4 (by omega) (by rfl)


/-! ## Claim theorems for the verse formatter -/

theorem linesCount_pos_ne_nil {ps : List Paragraph} (h : 0 < linesCount ps) :
    ps ≠ [] := by
  intro hn
  rw [hn] at h
  simp [linesCount] at h

theorem addToLast_append_singleton (a : Option PyAddr) (t : List Char) :
    ∀ (xs : List Paragraph) (p : Paragraph),
      addToLast (xs ++ [p]) a t = xs ++ [p.addText a t] := by
  intro xs
  induction xs with
  | nil => intro p; rfl
  | cons x xs ih =>
    intro p
    cases xs with
    | nil => rfl
    | cons y ys =>
      show x :: addToLast ((y :: ys) ++ [p]) a t = x :: ((y :: ys) ++ [p.addText a t])
      rw [ih p]

/-- C9: the formatter's last-element accesses are unguarded; with an
empty paragraph list they raise `IndexError` (not `FormattingError`),
reachable from `formatVerses` with an empty verse sequence (the
trailing trim) or with a first verse starting with the backslash marker
(the guarded append in `_handleParagraphBreak`). -/
theorem c9_unguarded_last_element_access :
    formatVerses [] = Except.error PyError.indexError
    ∧ formatVerses [(PyAddr.pair 1 1, ("\\x".data))] = Except.error PyError.indexError
    ∧ (∀ m : FmtMsg, PyError.indexError ≠ PyError.formattingError m) := by
  refine ⟨by rfl, (formatVerses_eq_fuel _).trans (by rfl), ?_⟩
  intro m h
  exact PyError.noConfusion h

/-- C1 counterexample: `formatVerses` does not return a non-empty
paragraph sequence for every input: the empty input raises
`IndexError`, and a verse consisting solely of the marker `[` returns
the empty paragraph sequence. -/
theorem c1_counterexample :
    formatVerses [] = Except.error PyError.indexError
    ∧ formatVerses [(PyAddr.pair 1 1, ("[".data))] = Except.ok [] := by
  exact ⟨by rfl, (formatVerses_eq_fuel _).trans (by rfl)⟩

/-- C1 (amended): whenever `formatVerses` returns normally and some
verse text contains a character that is neither a structural marker nor
whitespace, the returned paragraph sequence is non-empty.  (The empty
input raises `IndexError`, and marker-only inputs can raise or return
an empty sequence.) -/
theorem c1_output_nonempty_on_content (verses : List (PyAddr × List Char))
    (ps : List Paragraph) (h : formatVerses verses = Except.ok ps)
    (hc : versesHaveContent verses = true) : ps ≠ [] := by
  unfold formatVerses at h
  match hproc : initialState.processVerses verses with
  | Except.error e => rw [hproc] at h; simp [bind, Except.bind] at h
  | Except.ok st =>
    rw [hproc] at h
    simp only [bind, Except.bind] at h
    have hcount : 0 < linesCount st.paragraphs := by
      have := processVerses_content verses initialState st hc hproc
      simpa [initialState, linesCount] using this
    unfold trimTrailing at h
    match hl : st.paragraphs.getLast? with
    | none => rw [hl] at h; exact absurd h (by simp)
    | some p =>
      rw [hl] at h
      simp only [Except.ok.injEq] at h
      by_cases hp : p.isEmpty
      · rw [hp] at h
        simp only [if_true] at h
        rw [← h]
        apply linesCount_pos_ne_nil
        rw [linesCount_dropLast_of_isEmpty hl hp]
        exact hcount
      · have hp2 : p.isEmpty = false := by simpa using hp
        rw [hp2] at h
        simp only [Bool.false_eq_true, if_false] at h
        rw [← h]
        exact linesCount_pos_ne_nil hcount

/-- Witness for C1 (amended) at a single content-bearing verse. -/
theorem c1_witness :
    versesHaveContent [(PyAddr.pair 1 1, ("abc".data))] = true
    ∧ [Paragraph.mk Fmt.prose true [(some (PyAddr.pair 1 1), ("abc".data))]] ≠
        ([] : List Paragraph) :=
  ⟨by decide,
   c1_output_nonempty_on_content [(PyAddr.pair 1 1, ("abc".data))]
     [Paragraph.mk Fmt.prose true [(some (PyAddr.pair 1 1), ("abc".data))]]
     ((formatVerses_eq_fuel _).trans rfl) (by decide)⟩

/-- C3 counterexample: the verse text `[]` leaves two trailing empty
paragraphs before the trim; only one is discarded, so the returned
sequence ends with a paragraph that has no lines. -/
theorem c3_counterexample :
    formatVerses [(PyAddr.pair 1 1, ("[]".data))] =
      Except.ok [Paragraph.mk Fmt.poetry true []]
    ∧ (Paragraph.mk Fmt.poetry true []).isEmpty = true :=
  ⟨(formatVerses_eq_fuel _).trans (by rfl), by rfl⟩

/-- The accumulated paragraph list ends in two empty paragraphs. -/
def twoTrailingEmpty (ps : List Paragraph) : Bool :=
  match ps.getLast?, ps.dropLast.getLast? with
  | some p, some q => p.isEmpty && q.isEmpty
  | _, _ => false

/-- C3 (amended): after processing every verse, a final paragraph with
no lines is discarded — exactly one — so whenever the accumulated
paragraph list does not end with two empty paragraphs (which
marker-only verse texts such as `[]` can produce), the last paragraph
of the returned sequence has at least one line. -/
theorem c3_trailing_empty_paragraph_trim (verses : List (PyAddr × List Char))
    (st : FmtState) (ps : List Paragraph)
    (hproc : initialState.processVerses verses = Except.ok st)
    (h : formatVerses verses = Except.ok ps)
    (h2 : twoTrailingEmpty st.paragraphs = false) :
    ∀ p, ps.getLast? = some p → p.isEmpty = false := by
  intro p hp
  unfold formatVerses at h
  rw [hproc] at h
  simp only [bind, Except.bind] at h
  unfold trimTrailing at h
  match hl : st.paragraphs.getLast? with
  | none => rw [hl] at h; exact absurd h (by simp)
  | some q =>
    rw [hl] at h
    simp only [Except.ok.injEq] at h
    by_cases hq : q.isEmpty
    · rw [hq] at h
      simp only [if_true] at h
      rw [← h] at hp
      unfold twoTrailingEmpty at h2
      rw [hl, hp] at h2
      dsimp only at h2
      rw [hq] at h2
      simpa using h2
    · have hq2 : q.isEmpty = false := by simpa using hq
      rw [hq2] at h
      simp only [Bool.false_eq_true, if_false] at h
      rw [← h] at hp
      rw [hl] at hp
      have : q = p := by injection hp
      rw [← this]
      exact hq2

/-- C4 counterexample: processing the marker `/` in the state where no
paragraph exists does NOT append a poetry paragraph: the leniency guard
`currentParagraphIsNotPoetry` is false for the empty paragraph list, so
the preceding segment is committed into a freshly created PROSE
paragraph instead. -/
theorem c4_counterexample :
    (FmtState.mk true [] (some (PyAddr.pair 1 1))).handlePoetryLineBreak ("a".data) =
      FmtState.mk true [Paragraph.mk Fmt.prose true [(some (PyAddr.pair 1 1), ("a".data))]] none
    ∧ Fmt.prose ≠ Fmt.poetry
    ∧ formatVerses [(PyAddr.pair 1 1, ("a/b".data))] =
        Except.ok [Paragraph.mk Fmt.prose true
          [(some (PyAddr.pair 1 1), ("a".data)), (none, ("b".data))]] :=
  ⟨by rfl, by decide, (formatVerses_eq_fuel _).trans (by rfl)⟩

/-- C4 (amended): processing `/` never raises.  When a current
paragraph exists and is not poetry, a new poetry paragraph is appended
and the preceding non-empty segment is committed as its line; when no
paragraph exists yet, no poetry paragraph is created and a non-empty
preceding segment is committed into a freshly created prose
paragraph. -/
theorem c4_line_break_leniency (st : FmtState) (seg : List Char) :
    st.dispatchMeta '/' seg = Except.ok (st.handlePoetryLineBreak seg)
    ∧ (st.currentParagraphIsNotPoetry = true → seg ≠ [] →
        st.handlePoetryLineBreak seg =
          { st with
            paragraphs := st.paragraphs ++
              [Paragraph.mk Fmt.poetry st.useColor [(st.verseAddr, seg)]],
            verseAddr := none })
    ∧ (st.paragraphs = [] → seg ≠ [] →
        st.handlePoetryLineBreak seg =
          { st with
            paragraphs := [Paragraph.mk Fmt.prose st.useColor [(st.verseAddr, seg)]],
            verseAddr := none }) := by
  refine ⟨by rfl, ?_, ?_⟩
  · intro hguard hseg
    have hlen : 0 < seg.length := List.length_pos.mpr hseg
    unfold FmtState.handlePoetryLineBreak
    rw [hguard]
    simp only [if_true]
    unfold FmtState.addTextToCurrentParagraph FmtState.appendParagraph
    simp only [hlen, if_pos]
    rw [if_neg (by simp)]
    rw [addToLast_append_singleton]
    rfl
  · intro hps hseg
    have hlen : 0 < seg.length := List.length_pos.mpr hseg
    have hguard : st.currentParagraphIsNotPoetry = false := by
      unfold FmtState.currentParagraphIsNotPoetry
      rw [hps]
      rfl
    unfold FmtState.handlePoetryLineBreak
    rw [hguard]
    simp only [Bool.false_eq_true, if_false]
    unfold FmtState.addTextToCurrentParagraph
    rw [hps]
    simp only [hlen, if_pos, List.length_nil, if_true]
    rfl

/-- Witness for C4 (amended): the poetry-append case on a prose
paragraph, and the fresh-prose case on the empty state. -/
theorem c4_witness :
    (FmtState.mk true [Paragraph.mk Fmt.prose true [(none, ("x".data))]]
        (some (PyAddr.pair 2 3))).handlePoetryLineBreak ("y".data) =
      FmtState.mk true
        [Paragraph.mk Fmt.prose true [(none, ("x".data))],
         Paragraph.mk Fmt.poetry true [(some (PyAddr.pair 2 3), ("y".data))]] none
    ∧ (FmtState.mk true [] (some (PyAddr.pair 1 1))).handlePoetryLineBreak ("a".data) =
      FmtState.mk true
        [Paragraph.mk Fmt.prose true [(some (PyAddr.pair 1 1), ("a".data))]] none :=
  ⟨(c4_line_break_leniency
      (FmtState.mk true [Paragraph.mk Fmt.prose true [(none, ("x".data))]]
        (some (PyAddr.pair 2 3))) (("y".data))).2.1 (by decide) (by decide),
   (c4_line_break_leniency
      (FmtState.mk true [] (some (PyAddr.pair 1 1))) (("a".data))).2.2
     (by rfl) (by decide)⟩

/-- C5: processing `]` while the current paragraph is prose raises the
formatting error (and the caller of `formatVerses` receives that error:
no partial output); otherwise `]` commits the preceding segment and
appends a new prose paragraph. -/
theorem c5_poetry_end_inside_prose (st : FmtState) (seg : List Char) :
    (st.currentParagraphIsProse = true →
      st.handlePoetryEnd seg =
        Except.error (PyError.formattingError FmtMsg.poetryEndInsideProse))
    ∧ (st.currentParagraphIsProse = false →
      st.handlePoetryEnd seg =
        Except.ok ((st.addTextToCurrentParagraph seg).appendParagraph Fmt.prose))
    ∧ formatVerses [(PyAddr.pair 1 1, ("a".data)), (PyAddr.pair 1 2, ("]b".data))] =
        Except.error (PyError.formattingError FmtMsg.poetryEndInsideProse) := by
  refine ⟨?_, ?_, (formatVerses_eq_fuel _).trans (by rfl)⟩
  · intro h
    unfold FmtState.handlePoetryEnd
    rw [h]
    rfl
  · intro h
    unfold FmtState.handlePoetryEnd
    rw [h]
    rfl

/-- Witness for C5 at a prose state and a poetry state. -/
theorem c5_witness :
    (FmtState.mk true [Paragraph.mk Fmt.prose true [(none, ("x".data))]]
        none).handlePoetryEnd ("y".data) =
      Except.error (PyError.formattingError FmtMsg.poetryEndInsideProse)
    ∧ (FmtState.mk true [Paragraph.mk Fmt.poetry true [(none, ("x".data))]]
        none).handlePoetryEnd ("y".data) =
      Except.ok
        (((FmtState.mk true [Paragraph.mk Fmt.poetry true [(none, ("x".data))]]
            none).addTextToCurrentParagraph ("y".data)).appendParagraph Fmt.prose) :=
  ⟨(c5_poetry_end_inside_prose
      (FmtState.mk true [Paragraph.mk Fmt.prose true [(none, ("x".data))]] none)
      (("y".data))).1 (by decide),
   (c5_poetry_end_inside_prose
      (FmtState.mk true [Paragraph.mk Fmt.poetry true [(none, ("x".data))]] none)
      (("y".data))).2.1 (by decide)⟩

/-- C10: processing `]` when no paragraph exists yet does not raise:
the prose precondition only fires when a last paragraph exists and is
prose; a leading `]` commits any non-empty preceding segment into a
freshly created prose paragraph and then appends a new prose
paragraph. -/
theorem c10_poetry_end_without_paragraph (st : FmtState) (seg : List Char)
    (h : st.paragraphs = []) :
    (∃ st2, st.handlePoetryEnd seg = Except.ok st2)
    ∧ (seg ≠ [] →
        st.handlePoetryEnd seg = Except.ok
          (FmtState.mk st.useColor
            [Paragraph.mk Fmt.prose st.useColor [(st.verseAddr, seg)],
             Paragraph.mk Fmt.prose st.useColor []] none))
    ∧ formatVerses [(PyAddr.pair 1 1, ("a]".data))] =
        Except.ok [Paragraph.mk Fmt.prose true
          [(some (PyAddr.pair 1 1), ("a".data))]] := by
  have hguard : st.currentParagraphIsProse = false := by
    unfold FmtState.currentParagraphIsProse
    rw [h]
    rfl
  refine ⟨?_, ?_, (formatVerses_eq_fuel _).trans (by rfl)⟩
  · refine ⟨(st.addTextToCurrentParagraph seg).appendParagraph Fmt.prose, ?_⟩
    unfold FmtState.handlePoetryEnd
    rw [hguard]
    rfl
  · intro hseg
    have hlen : 0 < seg.length := List.length_pos.mpr hseg
    unfold FmtState.handlePoetryEnd
    rw [hguard]
    simp only [Bool.false_eq_true, if_false, Except.ok.injEq]
    unfold FmtState.addTextToCurrentParagraph
    rw [h]
    simp only [hlen, if_pos, List.length_nil, if_true]
    rfl

/-- Witness for C10 at the empty state with a non-empty segment. -/
theorem c10_witness :
    (FmtState.mk true [] (some (PyAddr.pair 2 3))).handlePoetryEnd ("x".data) =
      Except.ok
        (FmtState.mk true
          [Paragraph.mk Fmt.prose true [(some (PyAddr.pair 2 3), ("x".data))],
           Paragraph.mk Fmt.prose true []] none) :=
  (c10_poetry_end_without_paragraph
    (FmtState.mk true [] (some (PyAddr.pair 2 3))) (("x".data)) (by rfl)).2.1
    (by decide)

/-- C6 (code behavior at the failing input): the renderer unpacks every
present address as a (chapter, verse) pair, so a line whose address is
a bare integer raises `TypeError` rather than rendering the bare
chapter number; a (chapter, verse) pair renders as the
bracket-delimited chapter:verse label and an absent address renders as
the empty label. -/
theorem c6_bare_integer_address_unpacking :
    formatLineOfProse false (some (PyAddr.int 1)) ("abc".data) =
      Except.error PyError.typeError
    ∧ formatLineOfPoetry false (some (PyAddr.int 1)) ("abc".data) true =
      Except.error PyError.typeError
    ∧ formatLineOfProse false (some (PyAddr.pair 3 16)) ("abc".data) =
      Except.ok ("[3:16] abc".data)
    ∧ formatLineOfProse false none ("abc".data) = Except.ok (" abc".data)
    ∧ formatLineOfPoetry false none ("abc".data) true =
      Except.ok (List.replicate 12 ' ' ++ ("abc".data))
    ∧ formatLineOfPoetry false (some (PyAddr.pair 1 2)) ("abc".data) true =
      Except.ok ("[1:2]       abc".data) :=
  ⟨by rfl, by rfl, by rfl, by rfl, by decide, by rfl⟩


/-- Witness for C3 (amended) at a single content-bearing verse. -/
theorem c3_witness :
    twoTrailingEmpty (FmtState.mk true
      [Paragraph.mk Fmt.prose true [(some (PyAddr.pair 1 1), ("abc".data))]]
      none).paragraphs = false
    ∧ (Paragraph.mk Fmt.prose true
        [(some (PyAddr.pair 1 1), ("abc".data))]).isEmpty = false :=
  ⟨by decide,
   c3_trailing_empty_paragraph_trim [(PyAddr.pair 1 1, ("abc".data))]
     (FmtState.mk true
       [Paragraph.mk Fmt.prose true [(some (PyAddr.pair 1 1), ("abc".data))]]
       none)
     [Paragraph.mk Fmt.prose true [(some (PyAddr.pair 1 1), ("abc".data))]]
     ((processVerses_eq_fuel _ _).trans rfl)
     ((formatVerses_eq_fuel _).trans rfl)
     (by decide)
     (Paragraph.mk Fmt.prose true [(some (PyAddr.pair 1 1), ("abc".data))])
     (by rfl)⟩

end Bible
